import Mathlib

/-!
Verification of the snapshot persistence engine in
`src/atm_core/snapshot_store.py`: a content-addressed blob store, a
metadata index of snapshots and per-snapshot tool-ledger rows, and the
snapshot service operations `snapshot`, `get` and `last_snapshot_id`.

Modelling conventions:
* Python `bytes` values are lists of naturals below 256.
* Python `str.encode("utf-8")`, `bytes.decode("utf-8")` and
  `bytes.decode("utf-8", errors="ignore")` are modelled by the executable
  UTF-8 codecs below.
* `gzip` compression is lossless; blob files hold the original payload,
  so compression is modelled as the identity on the stored bytes.
* `sha256_text` (defined in `atm_core/models.py`, which is not part of the
  sources) is modelled from the spec as an arbitrary digest function
  `hash : String → String`; the spec's collision-resistance assumption
  enters theorems as an injectivity hypothesis on `hash`.
* `uuid.uuid4()` draws globally unique opaque identifiers; the identifier
  space is modelled as `Nat` and per-call freshness by a monotone counter
  kept in the store state.
* `time.time()` is modelled by an explicit clock argument `now : Int`.
* the sqlite index is modelled by in-memory lists kept in insertion
  order, with the `tool_ledger` AUTOINCREMENT primary key made explicit
  as a counter in the store state.
-/

namespace AtmCore

/-- A UTF-8 continuation byte: `0x80 ≤ b < 0xC0`. -/
def Cont (b : Nat) : Prop := 0x80 ≤ b ∧ b < 0xC0

instance (b : Nat) : Decidable (Cont b) := by
  unfold Cont; exact inferInstance

/-- Valid first continuation byte after lead byte `b0`.  The
lead-dependent ranges exclude overlong encodings and surrogate code
points, exactly as CPython's UTF-8 decoder does. -/
def ContOK (b0 b1 : Nat) : Prop :=
  (b0 = 0xE0 ∧ 0xA0 ≤ b1 ∧ b1 < 0xC0) ∨
  (b0 = 0xED ∧ 0x80 ≤ b1 ∧ b1 < 0xA0) ∨
  (b0 = 0xF0 ∧ 0x90 ≤ b1 ∧ b1 < 0xC0) ∨
  (b0 = 0xF4 ∧ 0x80 ≤ b1 ∧ b1 < 0x90) ∨
  (b0 ≠ 0xE0 ∧ b0 ≠ 0xED ∧ b0 ≠ 0xF0 ∧ b0 ≠ 0xF4 ∧ 0x80 ≤ b1 ∧ b1 < 0xC0)

instance (b0 b1 : Nat) : Decidable (ContOK b0 b1) := by
  unfold ContOK; exact inferInstance

/-- UTF-8 encoding of one Unicode scalar value. -/
def utf8EncodeChar (c : Nat) : List Nat :=
  if c < 0x80 then [c]
  else if c < 0x800 then [0xC0 + c / 64, 0x80 + c % 64]
  else if c < 0x10000 then
    [0xE0 + c / 4096, 0x80 + c / 64 % 64, 0x80 + c % 64]
  else
    [0xF0 + c / 262144, 0x80 + c / 4096 % 64, 0x80 + c / 64 % 64, 0x80 + c % 64]

/-- Python `str.encode("utf-8")`: the UTF-8 bytes of a string. -/
def utf8Encode (s : String) : List Nat :=
  (s.data.map (fun c => utf8EncodeChar c.toNat)).flatten

/-- Decoding of one scalar value from lead byte `b0` and the following
bytes `bs`.  Returns `(some c, rest)` on success, and `(none, rest)` on
an ill-formed sequence, where `rest` is the input after the offending
maximal subpart (the part CPython's `errors="ignore"` handler skips;
strict decoding ignores that component and just fails). -/
def utf8Step (b0 : Nat) (bs : List Nat) : Option Nat × List Nat :=
  if b0 < 0x80 then (some b0, bs)
  else if b0 < 0xC2 then (none, bs)
  else if b0 < 0xE0 then
    match bs with
    | b1 :: bs2 =>
      if ContOK b0 b1 then (some ((b0 - 0xC0) * 64 + (b1 - 0x80)), bs2)
      else (none, b1 :: bs2)
    | [] => (none, [])
  else if b0 < 0xF0 then
    match bs with
    | b1 :: bs2 =>
      if ContOK b0 b1 then
        match bs2 with
        | b2 :: bs3 =>
          if Cont b2 then
            (some ((b0 - 0xE0) * 4096 + (b1 - 0x80) * 64 + (b2 - 0x80)), bs3)
          else (none, b2 :: bs3)
        | [] => (none, [])
      else (none, b1 :: bs2)
    | [] => (none, [])
  else if b0 < 0xF5 then
    match bs with
    | b1 :: bs2 =>
      if ContOK b0 b1 then
        match bs2 with
        | b2 :: bs3 =>
          if Cont b2 then
            match bs3 with
            | b3 :: bs4 =>
              if Cont b3 then
                (some ((b0 - 0xF0) * 262144 + (b1 - 0x80) * 4096 + (b2 - 0x80) * 64 +
                  (b3 - 0x80)), bs4)
              else (none, b3 :: bs4)
            | [] => (none, [])
          else (none, b2 :: bs3)
        | [] => (none, [])
      else (none, b1 :: bs2)
    | [] => (none, [])
  else (none, bs)

theorem utf8Step_rest_length (b0 : Nat) (bs : List Nat) :
    (utf8Step b0 bs).2.length ≤ bs.length := by
  unfold utf8Step
  repeat' split
  all_goals simp_all
  all_goals omega

/-- Strict UTF-8 decoding to a list of code points; `none` on any
ill-formed input (Python `bytes.decode("utf-8")` raising
`UnicodeDecodeError`). -/
def utf8DecodeStrictCps (l : List Nat) : Option (List Nat) :=
  match l with
  | [] => some []
  | b0 :: bs =>
    match h : utf8Step b0 bs with
    | (some c, rest) => (utf8DecodeStrictCps rest).map (fun cs => c :: cs)
    | (none, _) => none
termination_by l.length
decreasing_by
  have hle : rest.length ≤ bs.length := by
    have hle0 := utf8Step_rest_length b0 bs
    rw [h] at hle0
    exact hle0
  simp only [List.length_cons]
  omega

/-- Lossy UTF-8 decoding to a list of code points (Python
`bytes.decode("utf-8", errors="ignore")`): each maximal ill-formed
subpart is dropped and decoding continues after it, as in CPython. -/
def utf8DecodeIgnoreCps (l : List Nat) : List Nat :=
  match l with
  | [] => []
  | b0 :: bs =>
    match h : utf8Step b0 bs with
    | (some c, rest) => c :: utf8DecodeIgnoreCps rest
    | (none, rest) => utf8DecodeIgnoreCps rest
termination_by l.length
decreasing_by
  all_goals
    have hle : rest.length ≤ bs.length := by
      have hle0 := utf8Step_rest_length b0 bs
      rw [h] at hle0
      exact hle0
    simp only [List.length_cons]
    omega

/-- Strict UTF-8 decoding to a `String`. -/
def utf8DecodeStrict (bs : List Nat) : Option String :=
  (utf8DecodeStrictCps bs).map (fun cs => String.mk (cs.map Char.ofNat))

/-- Lossy UTF-8 decoding to a `String`. -/
def utf8DecodeIgnore (bs : List Nat) : String :=
  String.mk ((utf8DecodeIgnoreCps bs).map Char.ofNat)

/-- One tool invocation record of the agent state.
Modelled from the spec: the record type lives in `atm_core/models.py`,
which is not among the sources; its fields follow §3 and §6 of the spec
(`name`, `in_hash`, `out_hash`, `status`, `latency_ms`, `url`,
`created_at`). -/
structure ToolLedgerEntry where
  name : String
  in_hash : String
  out_hash : String
  status : String
  latency_ms : Int
  url : Option String
  created_at : Int
  deriving DecidableEq

/-- The agent state as the snapshot store consumes it.
Modelled from the spec: `AgentState` lives in `atm_core/models.py`, which
is not among the sources; per §6 it supplies a deterministic canonical
serialization (`to_json`, modelled by its text output) and the ordered
tool ledger. -/
structure AgentState where
  to_json : String
  tool_ledger : List ToolLedgerEntry
  deriving DecidableEq

/-- One row of the `snapshots` table. -/
structure SnapshotRow where
  snapshot_id : Nat
  parent_snapshot_id : Option Nat
  state_hash : String
  state_blob_hash : String
  created_at : Int
  deriving DecidableEq

/-- One row of the `tool_ledger` table; `id` is the AUTOINCREMENT
primary key. -/
structure LedgerRow where
  id : Nat
  snapshot_id : Nat
  name : String
  in_hash : String
  out_hash : String
  status : String
  latency_ms : Int
  url : Option String
  created_at : Int
  deriving DecidableEq

/-- The externally visible fields of a ledger row (everything except the
AUTOINCREMENT key and the owning snapshot id), as a ledger entry. -/
def LedgerRow.fields (r : LedgerRow) : ToolLedgerEntry :=
  ⟨r.name, r.in_hash, r.out_hash, r.status, r.latency_ms, r.url, r.created_at⟩

/-- The durable state of one `SnapshotStore` root directory: the blob
files under `blobs/` as (digest, payload bytes) pairs, the two sqlite
tables in insertion order, the next AUTOINCREMENT key of `tool_ledger`,
and the counter from which fresh uuids are drawn. -/
structure StoreState where
  blobs : List (String × List Nat)
  snapshots : List SnapshotRow
  tool_ledger : List LedgerRow
  next_ledger_id : Nat
  next_uuid : Nat
  deriving DecidableEq

/-- A freshly initialized store (`__init__` plus `_init_db`): empty
tables and no blob files; sqlite AUTOINCREMENT keys start at 1. -/
def emptyStore : StoreState := ⟨[], [], [], 1, 0⟩

/-- Lookup of a blob file by digest (the `os.path.exists` check and the
open of `blobs/<digest>.json.gz`). -/
def blobLookup (blobs : List (String × List Nat)) (h : String) : Option (List Nat) :=
  (blobs.find? (fun p => p.1 == h)).map Prod.snd

/-- `SnapshotStore._write_blob`: hashes the lossy UTF-8 decoding of the
payload (`sha256_text(data.decode("utf-8", errors="ignore"))`), then
writes the payload under `<digest>.json.gz` only when no file with that
digest exists.  Returns the digest and the updated store. -/
def StoreState.write_blob (hash : String → String) (st : StoreState) (data : List Nat) :
    String × StoreState :=
  let h := hash (utf8DecodeIgnore data)
  if (blobLookup st.blobs h).isSome then (h, st)
  else (h, { st with blobs := st.blobs ++ [(h, data)] })

/-- `SnapshotStore._read_blob`: reads and decompresses the blob file of
a digest; `none` models the file-not-found error. -/
def StoreState.read_blob (st : StoreState) (h : String) : Option (List Nat) :=
  blobLookup st.blobs h

/-- The `tool_ledger` rows inserted by one `snapshot` call: one row per
entry of `state.tool_ledger`, in order, with consecutive AUTOINCREMENT
keys starting at the second argument. -/
def ledgerRowsFor (snap_id : Nat) : Nat → List ToolLedgerEntry → List LedgerRow
  | _, [] => []
  | i, e :: es =>
    ⟨i, snap_id, e.name, e.in_hash, e.out_hash, e.status, e.latency_ms, e.url, e.created_at⟩ ::
      ledgerRowsFor snap_id (i + 1) es

/-- `SnapshotStore.snapshot`: serializes the state, hashes the text,
writes the UTF-8 bytes of the text to the blob store, draws a fresh
snapshot id, and inserts the snapshot row plus one ledger row per
tool-ledger entry.  Returns the new id and the updated store. -/
def StoreState.snapshot (hash : String → String) (st : StoreState) (state : AgentState)
    (parent_snapshot_id : Option Nat) (now : Int) : Nat × StoreState :=
  let state_json := state.to_json
  let state_hash := hash state_json
  let wb := st.write_blob hash (utf8Encode state_json)
  let blob_hash := wb.1
  let st1 := wb.2
  let snap_id := st1.next_uuid
  let row : SnapshotRow := ⟨snap_id, parent_snapshot_id, state_hash, blob_hash, now⟩
  let rows := ledgerRowsFor snap_id st1.next_ledger_id state.tool_ledger
  (snap_id,
    { st1 with
      snapshots := st1.snapshots ++ [row]
      tool_ledger := st1.tool_ledger ++ rows
      next_ledger_id := st1.next_ledger_id + state.tool_ledger.length
      next_uuid := st1.next_uuid + 1 })

/-- `SnapshotStore.get`: looks up the snapshot row by id, reads the
blob named by its `state_blob_hash`, decodes it as UTF-8 and parses the
text (`json.loads`, modelled by the caller-supplied parse function).
Failures are returned as `Except.error` messages. -/
def StoreState.get {α : Type} (parse : String → α) (st : StoreState) (snapshot_id : Nat) :
    Except String α :=
  match st.snapshots.find? (fun r => r.snapshot_id == snapshot_id) with
  | none => .error ("Snapshot " ++ toString snapshot_id ++ " not found")
  | some row =>
    match st.read_blob row.state_blob_hash with
    | none => .error "blob file not found"
    | some data =>
      match utf8DecodeStrict data with
      | none => .error "invalid utf-8 in blob"
      | some text => .ok (parse text)

/-- The row sqlite returns for `ORDER BY created_at DESC LIMIT 1`: a
row with maximal `created_at`.  The tie-break among equal timestamps is
unspecified in sqlite; the model keeps the earliest such row in
insertion order. -/
def maxByCreated (r : SnapshotRow) (rs : List SnapshotRow) : SnapshotRow :=
  rs.foldl (fun best row => if best.created_at < row.created_at then row else best) r

/-- `SnapshotStore.last_snapshot_id`. -/
def StoreState.last_snapshot_id (st : StoreState) : Option Nat :=
  match st.snapshots with
  | [] => none
  | r :: rs => some (maxByCreated r rs).snapshot_id

/-- One pending index insert inside the sqlite transaction of a
`snapshot` call. -/
inductive IndexInsert where
  | snapRow (r : SnapshotRow)
  | ledgerRow (r : LedgerRow)

/-- `SnapshotStore.snapshot` with index failure modelled: `failOn` says
which `cursor.execute` insert calls raise.  All inserts of one call run
in a single implicit sqlite transaction that only `conn.commit()` makes
durable, so when any insert raises before the commit the index is left
unchanged; the blob write has already happened and persists either way.
Returns the resulting durable store and the call's outcome. -/
def StoreState.snapshotFallible (hash : String → String) (failOn : IndexInsert → Bool)
    (st : StoreState) (state : AgentState) (parent_snapshot_id : Option Nat) (now : Int) :
    StoreState × Except String Nat :=
  let wb := st.write_blob hash (utf8Encode state.to_json)
  let st1 := wb.2
  let snap_id := st1.next_uuid
  let row : SnapshotRow := ⟨snap_id, parent_snapshot_id, hash state.to_json, wb.1, now⟩
  let rows := ledgerRowsFor snap_id st1.next_ledger_id state.tool_ledger
  if failOn (.snapRow row) ∨ rows.any (fun r => failOn (.ledgerRow r)) then
    (st1, .error "index insert failed")
  else
    ({ st1 with
        snapshots := st1.snapshots ++ [row]
        tool_ledger := st1.tool_ledger ++ rows
        next_ledger_id := st1.next_ledger_id + state.tool_ledger.length
        next_uuid := st1.next_uuid + 1 },
      .ok snap_id)

theorem utf8Step_one (c : Nat) (h1 : c < 0x80) (rest : List Nat) :
    utf8Step c rest = (some c, rest) := by
  unfold utf8Step
  rw [if_pos h1]

theorem utf8Step_two (c : Nat) (h2 : 0x80 ≤ c) (h3 : c < 0x800) (rest : List Nat) :
    utf8Step (0xC0 + c / 64) ((0x80 + c % 64) :: rest) = (some c, rest) := by
  have hc : ContOK (0xC0 + c / 64) (0x80 + c % 64) := by unfold ContOK; omega
  have hval : (0xC0 + c / 64 - 0xC0) * 64 + (0x80 + c % 64 - 0x80) = c := by omega
  unfold utf8Step
  rw [if_neg (by omega), if_neg (by omega), if_pos (by omega)]
  simp only [if_pos hc, hval]

theorem utf8Step_three (c : Nat) (h2 : 0x800 ≤ c) (h3 : c < 0x10000)
    (hs : ¬(0xD800 ≤ c ∧ c < 0xE000)) (rest : List Nat) :
    utf8Step (0xE0 + c / 4096) ((0x80 + c / 64 % 64) :: (0x80 + c % 64) :: rest) =
      (some c, rest) := by
  have hc : ContOK (0xE0 + c / 4096) (0x80 + c / 64 % 64) := by unfold ContOK; omega
  have hc2 : Cont (0x80 + c % 64) := by unfold Cont; omega
  have hval :
      (0xE0 + c / 4096 - 0xE0) * 4096 + (0x80 + c / 64 % 64 - 0x80) * 64 +
        (0x80 + c % 64 - 0x80) = c := by omega
  unfold utf8Step
  rw [if_neg (by omega), if_neg (by omega), if_neg (by omega), if_pos (by omega)]
  simp only [if_pos hc, if_pos hc2, hval]

theorem utf8Step_four (c : Nat) (h2 : 0x10000 ≤ c) (h3 : c < 0x110000) (rest : List Nat) :
    utf8Step (0xF0 + c / 262144)
        ((0x80 + c / 4096 % 64) :: (0x80 + c / 64 % 64) :: (0x80 + c % 64) :: rest) =
      (some c, rest) := by
  have hc : ContOK (0xF0 + c / 262144) (0x80 + c / 4096 % 64) := by unfold ContOK; omega
  have hc2 : Cont (0x80 + c / 64 % 64) := by unfold Cont; omega
  have hc3 : Cont (0x80 + c % 64) := by unfold Cont; omega
  have hval :
      (0xF0 + c / 262144 - 0xF0) * 262144 + (0x80 + c / 4096 % 64 - 0x80) * 4096 +
        (0x80 + c / 64 % 64 - 0x80) * 64 + (0x80 + c % 64 - 0x80) = c := by omega
  unfold utf8Step
  rw [if_neg (by omega), if_neg (by omega), if_neg (by omega), if_neg (by omega),
    if_pos (by omega)]
  simp only [if_pos hc, if_pos hc2, if_pos hc3, hval]

theorem utf8Step_encChar (c : Nat) (hv : Nat.isValidChar c) (rest : List Nat) :
    ∃ b0 bs, utf8EncodeChar c ++ rest = b0 :: bs ∧ utf8Step b0 bs = (some c, rest) := by
  rcases Nat.lt_or_ge c 0x80 with h1 | h1
  · refine ⟨c, rest, ?_, utf8Step_one c h1 rest⟩
    simp [utf8EncodeChar, if_pos h1]
  · rcases Nat.lt_or_ge c 0x800 with h2 | h2
    · refine ⟨0xC0 + c / 64, (0x80 + c % 64) :: rest, ?_, utf8Step_two c h1 h2 rest⟩
      simp [utf8EncodeChar, if_neg (by omega : ¬c < 0x80), if_pos h2]
    · rcases Nat.lt_or_ge c 0x10000 with h3 | h3
      · have hs : ¬(0xD800 ≤ c ∧ c < 0xE000) := by
          rcases hv with hv | hv <;> omega
        refine ⟨0xE0 + c / 4096, (0x80 + c / 64 % 64) :: (0x80 + c % 64) :: rest, ?_,
          utf8Step_three c h2 h3 hs rest⟩
        simp [utf8EncodeChar, if_neg (by omega : ¬c < 0x80), if_neg (by omega : ¬c < 0x800),
          if_pos h3]
      · have h4 : c < 0x110000 := by
          rcases hv with hv | hv <;> omega
        refine ⟨0xF0 + c / 262144,
          (0x80 + c / 4096 % 64) :: (0x80 + c / 64 % 64) :: (0x80 + c % 64) :: rest, ?_,
          utf8Step_four c h3 h4 rest⟩
        simp [utf8EncodeChar, if_neg (by omega : ¬c < 0x80), if_neg (by omega : ¬c < 0x800),
          if_neg (by omega : ¬c < 0x10000)]

theorem utf8DecodeStrictCps_nil : utf8DecodeStrictCps [] = some [] := by
  rw [utf8DecodeStrictCps]

theorem utf8DecodeIgnoreCps_nil : utf8DecodeIgnoreCps [] = [] := by
  rw [utf8DecodeIgnoreCps]

theorem utf8DecodeStrictCps_cons_some (b0 c : Nat) (bs rest : List Nat)
    (h : utf8Step b0 bs = (some c, rest)) :
    utf8DecodeStrictCps (b0 :: bs) = (utf8DecodeStrictCps rest).map (fun cs => c :: cs) := by
  conv_lhs => rw [utf8DecodeStrictCps]
  split
  next c2 rest2 heq =>
    rw [h] at heq
    injection heq with h1 h2
    injection h1 with h1
    rw [h1, h2]
  next x heq =>
    rw [h] at heq
    injection heq with h1 h2
    exact absurd h1 (by simp)

theorem utf8DecodeStrictCps_cons_none (b0 : Nat) (bs rest : List Nat)
    (h : utf8Step b0 bs = (none, rest)) :
    utf8DecodeStrictCps (b0 :: bs) = none := by
  conv_lhs => rw [utf8DecodeStrictCps]
  split
  next c2 rest2 heq =>
    rw [h] at heq
    injection heq with h1 h2
    exact absurd h1 (by simp)
  next x heq => rfl

theorem utf8DecodeIgnoreCps_cons_some (b0 c : Nat) (bs rest : List Nat)
    (h : utf8Step b0 bs = (some c, rest)) :
    utf8DecodeIgnoreCps (b0 :: bs) = c :: utf8DecodeIgnoreCps rest := by
  conv_lhs => rw [utf8DecodeIgnoreCps]
  split
  next c2 rest2 heq =>
    rw [h] at heq
    injection heq with h1 h2
    injection h1 with h1
    rw [h1, h2]
  next rest2 heq =>
    rw [h] at heq
    injection heq with h1 h2
    exact absurd h1 (by simp)

theorem utf8DecodeIgnoreCps_cons_none (b0 : Nat) (bs rest : List Nat)
    (h : utf8Step b0 bs = (none, rest)) :
    utf8DecodeIgnoreCps (b0 :: bs) = utf8DecodeIgnoreCps rest := by
  conv_lhs => rw [utf8DecodeIgnoreCps]
  split
  next c2 rest2 heq =>
    rw [h] at heq
    injection heq with h1 h2
    exact absurd h1 (by simp)
  next rest2 heq =>
    rw [h] at heq
    injection heq with h1 h2
    rw [h2]

theorem utf8DecodeStrictCps_encChar (c : Nat) (hv : Nat.isValidChar c) (rest : List Nat) :
    utf8DecodeStrictCps (utf8EncodeChar c ++ rest) =
      (utf8DecodeStrictCps rest).map (fun cs => c :: cs) := by
  obtain ⟨b0, bs, heq, hstep⟩ := utf8Step_encChar c hv rest
  rw [heq, utf8DecodeStrictCps_cons_some b0 c bs rest hstep]

theorem utf8DecodeIgnoreCps_encChar (c : Nat) (hv : Nat.isValidChar c) (rest : List Nat) :
    utf8DecodeIgnoreCps (utf8EncodeChar c ++ rest) = c :: utf8DecodeIgnoreCps rest := by
  obtain ⟨b0, bs, heq, hstep⟩ := utf8Step_encChar c hv rest
  rw [heq, utf8DecodeIgnoreCps_cons_some b0 c bs rest hstep]

theorem utf8DecodeStrictCps_encode (l : List Char) :
    utf8DecodeStrictCps ((l.map (fun c => utf8EncodeChar c.toNat)).flatten) =
      some (l.map Char.toNat) := by
  induction l with
  | nil => simpa using utf8DecodeStrictCps_nil
  | cons c l ih =>
    have hv : Nat.isValidChar c.toNat := c.valid
    simp only [List.map_cons, List.flatten_cons]
    rw [utf8DecodeStrictCps_encChar c.toNat hv, ih]
    rfl

theorem utf8DecodeIgnoreCps_encode (l : List Char) :
    utf8DecodeIgnoreCps ((l.map (fun c => utf8EncodeChar c.toNat)).flatten) =
      l.map Char.toNat := by
  induction l with
  | nil => simpa using utf8DecodeIgnoreCps_nil
  | cons c l ih =>
    have hv : Nat.isValidChar c.toNat := c.valid
    simp only [List.map_cons, List.flatten_cons]
    rw [utf8DecodeIgnoreCps_encChar c.toNat hv, ih]

theorem map_ofNat_map_toNat (l : List Char) : (l.map Char.toNat).map Char.ofNat = l := by
  induction l with
  | nil => rfl
  | cons c l ih => simp [ih, Char.ofNat_toNat]

theorem utf8DecodeStrict_encode (s : String) : utf8DecodeStrict (utf8Encode s) = some s := by
  simp only [utf8DecodeStrict, utf8Encode, utf8DecodeStrictCps_encode]
  show some (String.mk ((s.data.map Char.toNat).map Char.ofNat)) = some s
  rw [map_ofNat_map_toNat]

theorem utf8DecodeIgnore_encode (s : String) : utf8DecodeIgnore (utf8Encode s) = s := by
  simp only [utf8DecodeIgnore, utf8Encode, utf8DecodeIgnoreCps_encode]
  show String.mk ((s.data.map Char.toNat).map Char.ofNat) = s
  rw [map_ofNat_map_toNat]

theorem write_blob_fst (hash : String → String) (st : StoreState) (data : List Nat) :
    (st.write_blob hash data).1 = hash (utf8DecodeIgnore data) := by
  simp only [StoreState.write_blob]
  split <;> rfl

theorem write_blob_fields (hash : String → String) (st : StoreState) (data : List Nat) :
    (st.write_blob hash data).2.snapshots = st.snapshots ∧
      (st.write_blob hash data).2.tool_ledger = st.tool_ledger ∧
      (st.write_blob hash data).2.next_ledger_id = st.next_ledger_id ∧
      (st.write_blob hash data).2.next_uuid = st.next_uuid := by
  simp only [StoreState.write_blob]
  split <;> simp

/-- Every blob file holds the UTF-8 bytes of some serialized text and
sits under that text's digest — the invariant maintained because all
blob writes go through `snapshot`. -/
def BlobsWF (hash : String → String) (blobs : List (String × List Nat)) : Prop :=
  ∀ p ∈ blobs, ∃ t : String, p.2 = utf8Encode t ∧ p.1 = hash t

theorem blobLookup_mem (blobs : List (String × List Nat)) (h : String) (d : List Nat)
    (hl : blobLookup blobs h = some d) : (h, d) ∈ blobs := by
  unfold blobLookup at hl
  obtain ⟨p, hp, hpd⟩ := Option.map_eq_some'.mp hl
  have hb := List.find?_some hp
  have hmem := List.mem_of_find?_eq_some hp
  have h1 : p.1 = h := by simpa using hb
  have : p = (h, d) := by
    rcases p with ⟨a, b⟩
    simp_all
  rw [this] at hmem
  exact hmem

theorem blobLookup_wf (hash : String → String) (blobs : List (String × List Nat))
    (t : String) (d : List Nat) (hwf : BlobsWF hash blobs) (hinj : Function.Injective hash)
    (hl : blobLookup blobs (hash t) = some d) : d = utf8Encode t := by
  obtain ⟨t2, hd, hh⟩ := hwf (hash t, d) (blobLookup_mem blobs (hash t) d hl)
  have hd2 : d = utf8Encode t2 := hd
  have hh2 : hash t = hash t2 := hh
  have ht : t = t2 := hinj hh2
  rw [hd2, ht]

theorem blobLookup_append_self (blobs : List (String × List Nat)) (h : String) (d : List Nat)
    (hnone : blobLookup blobs h = none) :
    blobLookup (blobs ++ [(h, d)]) h = some d := by
  unfold blobLookup at hnone ⊢
  rw [List.find?_append]
  have h1 : blobs.find? (fun p => p.1 == h) = none := by
    cases hfind : blobs.find? (fun p => p.1 == h) with
    | none => rfl
    | some p => rw [hfind] at hnone; simp at hnone
  rw [h1]
  simp

theorem write_blob_noop (hash : String → String) (st : StoreState) (data : List Nat)
    (hmem : (blobLookup st.blobs (hash (utf8DecodeIgnore data))).isSome) :
    st.write_blob hash data = (hash (utf8DecodeIgnore data), st) := by
  simp only [StoreState.write_blob]
  rw [if_pos hmem]

theorem write_blob_lookup_self (hash : String → String) (st : StoreState) (data : List Nat) :
    (blobLookup (st.write_blob hash data).2.blobs (hash (utf8DecodeIgnore data))).isSome := by
  simp only [StoreState.write_blob]
  split
  next hsome => exact hsome
  next hnone =>
    rw [blobLookup_append_self st.blobs _ data (Option.not_isSome_iff_eq_none.mp hnone)]
    rfl

theorem write_blob_wf (hash : String → String) (st : StoreState) (t : String)
    (hwf : BlobsWF hash st.blobs) :
    BlobsWF hash (st.write_blob hash (utf8Encode t)).2.blobs := by
  simp only [StoreState.write_blob, utf8DecodeIgnore_encode]
  split
  · exact hwf
  · intro p hp
    rcases List.mem_append.mp hp with hp | hp
    · exact hwf p hp
    · simp only [List.mem_singleton] at hp
      exact ⟨t, by simp [hp]⟩

theorem write_blob_lookup_enc (hash : String → String) (st : StoreState) (t : String)
    (hwf : BlobsWF hash st.blobs) (hinj : Function.Injective hash) :
    blobLookup (st.write_blob hash (utf8Encode t)).2.blobs (hash t) = some (utf8Encode t) := by
  simp only [StoreState.write_blob, utf8DecodeIgnore_encode]
  split
  next hsome =>
    obtain ⟨d, hd⟩ := Option.isSome_iff_exists.mp hsome
    have he := blobLookup_wf hash st.blobs t d hwf hinj hd
    rw [he] at hd
    exact hd
  next hnone =>
    exact blobLookup_append_self st.blobs _ _ (Option.not_isSome_iff_eq_none.mp hnone)

theorem ledgerRowsFor_length (sid n : Nat) (es : List ToolLedgerEntry) :
    (ledgerRowsFor sid n es).length = es.length := by
  induction es generalizing n with
  | nil => rfl
  | cons e es ih => simp [ledgerRowsFor, ih]

theorem ledgerRowsFor_fields (sid n : Nat) (es : List ToolLedgerEntry) :
    (ledgerRowsFor sid n es).map LedgerRow.fields = es := by
  induction es generalizing n with
  | nil => rfl
  | cons e es ih => simp [ledgerRowsFor, LedgerRow.fields, ih]

theorem ledgerRowsFor_snapshot_id (sid n : Nat) (es : List ToolLedgerEntry) :
    ∀ r ∈ ledgerRowsFor sid n es, r.snapshot_id = sid := by
  induction es generalizing n with
  | nil => intro r hr; simp [ledgerRowsFor] at hr
  | cons e es ih =>
    intro r hr
    simp only [ledgerRowsFor, List.mem_cons] at hr
    rcases hr with rfl | hr
    · rfl
    · exact ih (n + 1) r hr

theorem ledgerRowsFor_get_id (sid n : Nat) (es : List ToolLedgerEntry) (i : Nat)
    (hi : i < (ledgerRowsFor sid n es).length) :
    ((ledgerRowsFor sid n es).get ⟨i, hi⟩).id = n + i := by
  induction es generalizing n i with
  | nil => simp [ledgerRowsFor] at hi
  | cons e es ih =>
    cases i with
    | zero => rfl
    | succ i =>
      have hi2 : i < (ledgerRowsFor sid (n + 1) es).length := by
        simpa [ledgerRowsFor] using hi
      have := ih (n + 1) i hi2
      simp only [ledgerRowsFor, List.get_cons_succ]
      rw [this]
      omega

theorem snapshot_def (hash : String → String) (st : StoreState) (state : AgentState)
    (p : Option Nat) (now : Int) :
    StoreState.snapshot hash st state p now =
      (st.next_uuid,
        { blobs := (st.write_blob hash (utf8Encode state.to_json)).2.blobs
          snapshots := st.snapshots ++
            [⟨st.next_uuid, p, hash state.to_json,
              hash (utf8DecodeIgnore (utf8Encode state.to_json)), now⟩]
          tool_ledger := st.tool_ledger ++
            ledgerRowsFor st.next_uuid st.next_ledger_id state.tool_ledger
          next_ledger_id := st.next_ledger_id + state.tool_ledger.length
          next_uuid := st.next_uuid + 1 }) := by
  obtain ⟨h1, h2, h3, h4⟩ := write_blob_fields hash st (utf8Encode state.to_json)
  have h0 := write_blob_fst hash st (utf8Encode state.to_json)
  simp only [StoreState.snapshot]
  simp [Prod.ext_iff, StoreState.mk.injEq, h0, h1, h2, h3, h4]

theorem maxByCreated_mem (r : SnapshotRow) (rs : List SnapshotRow) :
    maxByCreated r rs ∈ r :: rs := by
  induction rs generalizing r with
  | nil => simp [maxByCreated]
  | cons a l ih =>
    have step := ih (if r.created_at < a.created_at then a else r)
    simp only [maxByCreated, List.foldl_cons] at step ⊢
    rcases List.mem_cons.mp step with h | h
    · rw [h]
      split <;> simp
    · simp [List.mem_cons_of_mem, h]

theorem maxByCreated_ge (r : SnapshotRow) (rs : List SnapshotRow) :
    ∀ x ∈ r :: rs, x.created_at ≤ (maxByCreated r rs).created_at := by
  induction rs generalizing r with
  | nil =>
    intro x hx
    simp only [List.mem_singleton] at hx
    rw [hx]
    exact le_refl _
  | cons a l ih =>
    intro x hx
    have hstep : r.created_at ≤ (if r.created_at < a.created_at then a else r).created_at ∧
        a.created_at ≤ (if r.created_at < a.created_at then a else r).created_at := by
      split <;> constructor <;> omega
    have ihs := ih (if r.created_at < a.created_at then a else r)
    simp only [maxByCreated, List.foldl_cons] at ihs ⊢
    rcases List.mem_cons.mp hx with rfl | hx2
    · exact le_trans hstep.1 (ihs _ (List.mem_cons_self _ _))
    · rcases List.mem_cons.mp hx2 with rfl | hx3
      · exact le_trans hstep.2 (ihs _ (List.mem_cons_self _ _))
      · exact ihs _ (List.mem_cons_of_mem _ hx3)

theorem find?_rows_append (rows : List SnapshotRow) (row : SnapshotRow) (sid : Nat)
    (hfresh : ∀ r ∈ rows, r.snapshot_id ≠ sid) :
    (rows ++ [row]).find? (fun r => r.snapshot_id == sid) =
      [row].find? (fun r => r.snapshot_id == sid) := by
  rw [List.find?_append]
  have h1 : rows.find? (fun r => r.snapshot_id == sid) = none := by
    rw [List.find?_eq_none]
    intro x hx
    simp [hfresh x hx]
  rw [h1]
  rfl

theorem snapshot_fst (hash : String → String) (st : StoreState) (state : AgentState)
    (p : Option Nat) (now : Int) :
    (StoreState.snapshot hash st state p now).1 = st.next_uuid := by
  rw [snapshot_def]

theorem snapshot_snapshots (hash : String → String) (st : StoreState) (state : AgentState)
    (p : Option Nat) (now : Int) :
    (StoreState.snapshot hash st state p now).2.snapshots =
      st.snapshots ++ [⟨st.next_uuid, p, hash state.to_json,
        hash (utf8DecodeIgnore (utf8Encode state.to_json)), now⟩] := by
  rw [snapshot_def]

theorem snapshot_blobs (hash : String → String) (st : StoreState) (state : AgentState)
    (p : Option Nat) (now : Int) :
    (StoreState.snapshot hash st state p now).2.blobs =
      (st.write_blob hash (utf8Encode state.to_json)).2.blobs := by
  rw [snapshot_def]

theorem snapshot_ledger (hash : String → String) (st : StoreState) (state : AgentState)
    (p : Option Nat) (now : Int) :
    (StoreState.snapshot hash st state p now).2.tool_ledger =
      st.tool_ledger ++ ledgerRowsFor st.next_uuid st.next_ledger_id state.tool_ledger := by
  rw [snapshot_def]

theorem snapshot_next_uuid (hash : String → String) (st : StoreState) (state : AgentState)
    (p : Option Nat) (now : Int) :
    (StoreState.snapshot hash st state p now).2.next_uuid = st.next_uuid + 1 := by
  rw [snapshot_def]

theorem snapshot_next_ledger_id (hash : String → String) (st : StoreState) (state : AgentState)
    (p : Option Nat) (now : Int) :
    (StoreState.snapshot hash st state p now).2.next_ledger_id =
      st.next_ledger_id + state.tool_ledger.length := by
  rw [snapshot_def]

/-- C1: for every agent state `S` and every store satisfying the blob
well-formedness and id-freshness invariants, with a collision-resistant
digest, `get` applied to the identifier returned by `snapshot S` yields
exactly the parse of the text produced by the canonical serialization
`S.to_json`. -/
theorem get_snapshot_roundtrip {α : Type} (parse : String → α) (hash : String → String)
    (st : StoreState) (state : AgentState) (p : Option Nat) (now : Int)
    (hinj : Function.Injective hash) (hwf : BlobsWF hash st.blobs)
    (hfresh : ∀ r ∈ st.snapshots, r.snapshot_id ≠ st.next_uuid) :
    StoreState.get parse (StoreState.snapshot hash st state p now).2
        (StoreState.snapshot hash st state p now).1 =
      Except.ok (parse state.to_json) := by
  rw [snapshot_def]
  unfold StoreState.get
  rw [find?_rows_append st.snapshots _ st.next_uuid hfresh]
  simp only [List.find?_singleton, beq_self_eq_true, if_pos]
  unfold StoreState.read_blob
  rw [utf8DecodeIgnore_encode]
  rw [write_blob_lookup_enc hash st state.to_json hwf hinj]
  simp only [utf8DecodeStrict_encode]

/-- Witness for C1 at the empty store. -/
theorem get_snapshot_roundtrip_witness :
    StoreState.get (fun s => s)
        (StoreState.snapshot (fun s => s) emptyStore ⟨"abc", []⟩ none 7).2
        (StoreState.snapshot (fun s => s) emptyStore ⟨"abc", []⟩ none 7).1 =
      Except.ok "abc" :=
  get_snapshot_roundtrip (fun s => s) (fun s => s) emptyStore ⟨"abc", []⟩ none 7
    (fun a b h => h) (fun q hq => absurd hq (List.not_mem_nil q))
    (fun r hr => absurd hr (List.not_mem_nil r))

/-- C2: two `snapshot` calls on states with identical serialized text
record the same `state_blob_hash` in their snapshot rows, the second
call leaves the blob file count unchanged, and the two calls return two
distinct snapshot ids. -/
theorem snapshot_dedup (hash : String → String) (st : StoreState) (s1 s2 : AgentState)
    (p1 p2 : Option Nat) (n1 n2 : Int) (heq : s1.to_json = s2.to_json) :
    (∃ row1 row2,
        (StoreState.snapshot hash st s1 p1 n1).2.snapshots.getLast? = some row1 ∧
          (StoreState.snapshot hash (StoreState.snapshot hash st s1 p1 n1).2 s2 p2
              n2).2.snapshots.getLast? = some row2 ∧
          row1.state_blob_hash = row2.state_blob_hash) ∧
      (StoreState.snapshot hash (StoreState.snapshot hash st s1 p1 n1).2 s2 p2
            n2).2.blobs.length =
        (StoreState.snapshot hash st s1 p1 n1).2.blobs.length ∧
      (StoreState.snapshot hash st s1 p1 n1).1 ≠
        (StoreState.snapshot hash (StoreState.snapshot hash st s1 p1 n1).2 s2 p2 n2).1 := by
  refine ⟨⟨⟨st.next_uuid, p1, hash s1.to_json,
      hash (utf8DecodeIgnore (utf8Encode s1.to_json)), n1⟩,
    ⟨(StoreState.snapshot hash st s1 p1 n1).2.next_uuid, p2, hash s2.to_json,
      hash (utf8DecodeIgnore (utf8Encode s2.to_json)), n2⟩, ?_, ?_, ?_⟩, ?_, ?_⟩
  · rw [snapshot_snapshots]
    exact List.getLast?_concat _
  · rw [snapshot_snapshots]
    exact List.getLast?_concat _
  · show hash (utf8DecodeIgnore (utf8Encode s1.to_json)) =
      hash (utf8DecodeIgnore (utf8Encode s2.to_json))
    rw [heq]
  · rw [snapshot_blobs hash _ s2 p2 n2, ← heq]
    have hself := write_blob_lookup_self hash st (utf8Encode s1.to_json)
    have hmem :
        (blobLookup (StoreState.snapshot hash st s1 p1 n1).2.blobs
          (hash (utf8DecodeIgnore (utf8Encode s1.to_json)))).isSome := by
      rw [snapshot_blobs]
      exact hself
    have hnoop := write_blob_noop hash (StoreState.snapshot hash st s1 p1 n1).2
      (utf8Encode s1.to_json) hmem
    rw [hnoop]
  · rw [snapshot_fst, snapshot_fst, snapshot_next_uuid]
    omega

/-- Witness for C2: two states serializing to the same text, snapshotted
into the empty store. -/
theorem snapshot_dedup_witness :
    (∃ row1 row2,
        (StoreState.snapshot (fun s => s) emptyStore ⟨"a", []⟩ none
              1).2.snapshots.getLast? = some row1 ∧
          (StoreState.snapshot (fun s => s)
              (StoreState.snapshot (fun s => s) emptyStore ⟨"a", []⟩ none 1).2
              ⟨"a", [⟨"t", "i", "o", "ok", 3, none, 4⟩]⟩ none
              2).2.snapshots.getLast? = some row2 ∧
          row1.state_blob_hash = row2.state_blob_hash) ∧
      (StoreState.snapshot (fun s => s)
            (StoreState.snapshot (fun s => s) emptyStore ⟨"a", []⟩ none 1).2
            ⟨"a", [⟨"t", "i", "o", "ok", 3, none, 4⟩]⟩ none 2).2.blobs.length =
        (StoreState.snapshot (fun s => s) emptyStore ⟨"a", []⟩ none 1).2.blobs.length ∧
      (StoreState.snapshot (fun s => s) emptyStore ⟨"a", []⟩ none 1).1 ≠
        (StoreState.snapshot (fun s => s)
            (StoreState.snapshot (fun s => s) emptyStore ⟨"a", []⟩ none 1).2
            ⟨"a", [⟨"t", "i", "o", "ok", 3, none, 4⟩]⟩ none 2).1 :=
  snapshot_dedup (fun s => s) emptyStore ⟨"a", []⟩ ⟨"a", [⟨"t", "i", "o", "ok", 3, none, 4⟩]⟩
    none none 1 2 rfl

theorem utf8DecodeIgnore_61 : utf8DecodeIgnore [0x61] = "a" := by
  have h1 : utf8Step 0x61 [] = (some 0x61, []) := by decide
  unfold utf8DecodeIgnore
  rw [utf8DecodeIgnoreCps_cons_some 0x61 0x61 [] [] h1, utf8DecodeIgnoreCps_nil]
  rfl

theorem utf8DecodeIgnore_61FF : utf8DecodeIgnore [0x61, 0xFF] = "a" := by
  have h1 : utf8Step 0x61 [0xFF] = (some 0x61, [0xFF]) := by decide
  have h2 : utf8Step 0xFF [] = (none, []) := by decide
  unfold utf8DecodeIgnore
  rw [utf8DecodeIgnoreCps_cons_some 0x61 0x61 [0xFF] [0xFF] h1,
    utf8DecodeIgnoreCps_cons_none 0xFF [] [] h2, utf8DecodeIgnoreCps_nil]
  rfl

/-- C3 counterexample: even with an injective (collision-free) digest
function on text, the two distinct byte payloads `[0x61]` and
`[0x61, 0xFF]` are stored under the same digest, because `_write_blob`
lossily decodes the payload before hashing — the digest is not computed
over the exact stored bytes. -/
theorem write_blob_digest_not_exact :
    Function.Injective (fun s : String => s) ∧
      ([0x61] : List Nat) ≠ [0x61, 0xFF] ∧
      (StoreState.write_blob (fun s => s) emptyStore [0x61]).1 =
        (StoreState.write_blob (fun s => s) emptyStore [0x61, 0xFF]).1 := by
  refine ⟨fun a b h => h, by decide, ?_⟩
  rw [write_blob_fst, write_blob_fst, utf8DecodeIgnore_61, utf8DecodeIgnore_61FF]

/-- C3 (amended): `_write_blob` computes the digest over the lossy
UTF-8 decoding of the payload rather than over the raw bytes, so with a
collision-resistant digest two payloads receive the same digest exactly
when their lossy decodings coincide: distinct byte sequences that
decode identically collide, while payloads with distinct lossy
decodings receive distinct digests. -/
theorem write_blob_digest_lossy (hash : String → String) (hinj : Function.Injective hash)
    (st1 st2 : StoreState) (d1 d2 : List Nat) :
    (st1.write_blob hash d1).1 = (st2.write_blob hash d2).1 ↔
      utf8DecodeIgnore d1 = utf8DecodeIgnore d2 := by
  rw [write_blob_fst, write_blob_fst]
  exact ⟨fun h => hinj h, fun h => by rw [h]⟩

/-- Witness for C3 (amended) at the identity digest and two concrete
payloads. -/
theorem write_blob_digest_lossy_witness :
    ((StoreState.write_blob (fun s => s) emptyStore [0x61]).1 =
        (StoreState.write_blob (fun s => s) emptyStore [0x61, 0xFF]).1 ↔
      utf8DecodeIgnore [0x61] = utf8DecodeIgnore [0x61, 0xFF]) :=
  write_blob_digest_lossy (fun s => s) (fun a b h => h) emptyStore emptyStore [0x61]
    [0x61, 0xFF]

/-- C5: `get` on an identifier with no matching row in the snapshots
index fails with an error message naming the missing identifier, and
never returns a value. -/
theorem get_missing {α : Type} (parse : String → α) (st : StoreState) (sid : Nat)
    (hmiss : ∀ r ∈ st.snapshots, r.snapshot_id ≠ sid) :
    StoreState.get parse st sid =
        Except.error ("Snapshot " ++ toString sid ++ " not found") ∧
      ∀ v : α, StoreState.get parse st sid ≠ Except.ok v := by
  have hfind : st.snapshots.find? (fun r => r.snapshot_id == sid) = none := by
    rw [List.find?_eq_none]
    intro x hx
    simp [hmiss x hx]
  have herr : StoreState.get parse st sid =
      Except.error ("Snapshot " ++ toString sid ++ " not found") := by
    unfold StoreState.get
    rw [hfind]
  refine ⟨herr, fun v h => ?_⟩
  rw [herr] at h
  exact Except.noConfusion h

/-- Witness for C5: an empty store and the identifier 5. -/
theorem get_missing_witness :
    StoreState.get (fun s => s) emptyStore 5 =
        Except.error ("Snapshot " ++ toString 5 ++ " not found") ∧
      ∀ v : String, StoreState.get (fun s => s) emptyStore 5 ≠ Except.ok v :=
  get_missing (fun s => s) emptyStore 5 (fun r hr => absurd hr (List.not_mem_nil r))

/-- C6: `last_snapshot_id` returns the id of the snapshot with maximal
`created_at` whenever one exists (in particular, with strictly
increasing timestamps it returns the most recently inserted id), and
returns `none` — not an error — when the store holds no snapshots. -/
theorem last_snapshot_id_spec (st : StoreState) :
    (st.snapshots = [] → st.last_snapshot_id = none) ∧
      ∀ r ∈ st.snapshots,
        (∀ r2 ∈ st.snapshots, r2 ≠ r → r2.created_at < r.created_at) →
        st.last_snapshot_id = some r.snapshot_id := by
  constructor
  · intro h
    unfold StoreState.last_snapshot_id
    rw [h]
  · intro r hr hmax
    unfold StoreState.last_snapshot_id
    cases hsn : st.snapshots with
    | nil => rw [hsn] at hr; exact absurd hr (List.not_mem_nil r)
    | cons a l =>
      rw [hsn] at hr hmax
      show some (maxByCreated a l).snapshot_id = some r.snapshot_id
      by_cases heq : maxByCreated a l = r
      · rw [heq]
      · have hlt := hmax (maxByCreated a l) (maxByCreated_mem a l) heq
        have hge := maxByCreated_ge a l r hr
        exfalso
        omega

/-- Witness for C6: a two-snapshot store with increasing timestamps,
and the empty store. -/
theorem last_snapshot_id_witness :
    StoreState.last_snapshot_id
        ⟨[], [⟨0, none, "h", "b", 1⟩, ⟨1, none, "h", "b", 2⟩], [], 1, 2⟩ = some 1 ∧
      StoreState.last_snapshot_id emptyStore = none := by
  constructor
  · exact (last_snapshot_id_spec ⟨[], [⟨0, none, "h", "b", 1⟩, ⟨1, none, "h", "b", 2⟩],
      [], 1, 2⟩).2 ⟨1, none, "h", "b", 2⟩ (by decide) (by decide)
  · exact (last_snapshot_id_spec emptyStore).1 rfl

/-- C7: `snapshot` stores the caller-supplied `parent_snapshot_id`
verbatim in the new snapshot row, retrievable from the index by the
returned id, for every parent value — including one naming no existing
snapshot — with no validation against existing snapshots (the call is
total and its outcome never depends on whether the parent exists). -/
theorem snapshot_parent_verbatim (hash : String → String) (st : StoreState)
    (state : AgentState) (P : Option Nat) (now : Int)
    (hfresh : ∀ r ∈ st.snapshots, r.snapshot_id ≠ st.next_uuid) :
    ∃ row,
      (StoreState.snapshot hash st state P now).2.snapshots.find?
          (fun r => r.snapshot_id == (StoreState.snapshot hash st state P now).1) =
        some row ∧
      row.parent_snapshot_id = P := by
  rw [snapshot_fst, snapshot_snapshots]
  refine ⟨⟨st.next_uuid, P, hash state.to_json,
    hash (utf8DecodeIgnore (utf8Encode state.to_json)), now⟩, ?_, rfl⟩
  rw [find?_rows_append st.snapshots _ st.next_uuid hfresh]
  simp

/-- Witness for C7: a dangling parent reference (id 99) stored into the
empty store and read back. -/
theorem snapshot_parent_verbatim_witness :
    ∃ row,
      (StoreState.snapshot (fun s => s) emptyStore ⟨"a", []⟩ (some 99) 3).2.snapshots.find?
          (fun r => r.snapshot_id ==
            (StoreState.snapshot (fun s => s) emptyStore ⟨"a", []⟩ (some 99) 3).1) =
        some row ∧
      row.parent_snapshot_id = some 99 :=
  snapshot_parent_verbatim (fun s => s) emptyStore ⟨"a", []⟩ (some 99) 3
    (fun r hr => absurd hr (List.not_mem_nil r))

/-- C4: for a state whose tool ledger has k entries, `snapshot`
persists exactly k ledger rows tagged with the returned snapshot id,
and their fields (`name`, `in_hash`, `out_hash`, `status`,
`latency_ms`, `url`, `created_at`), in order, equal the input
entries. -/
theorem snapshot_ledger_fidelity (hash : String → String) (st : StoreState)
    (state : AgentState) (p : Option Nat) (now : Int)
    (hfresh : ∀ r ∈ st.tool_ledger, r.snapshot_id ≠ st.next_uuid) :
    ((StoreState.snapshot hash st state p now).2.tool_ledger.filter
          (fun r => r.snapshot_id == (StoreState.snapshot hash st state p now).1)).length =
        state.tool_ledger.length ∧
      ((StoreState.snapshot hash st state p now).2.tool_ledger.filter
          (fun r => r.snapshot_id == (StoreState.snapshot hash st state p now).1)).map
          LedgerRow.fields = state.tool_ledger := by
  rw [snapshot_fst, snapshot_ledger, List.filter_append]
  have h1 : st.tool_ledger.filter (fun r => r.snapshot_id == st.next_uuid) = [] := by
    rw [List.filter_eq_nil_iff]
    intro x hx
    simp [hfresh x hx]
  have h2 : (ledgerRowsFor st.next_uuid st.next_ledger_id state.tool_ledger).filter
      (fun r => r.snapshot_id == st.next_uuid) =
      ledgerRowsFor st.next_uuid st.next_ledger_id state.tool_ledger := by
    rw [List.filter_eq_self]
    intro x hx
    simp [ledgerRowsFor_snapshot_id _ _ _ x hx]
  rw [h1, h2, List.nil_append]
  exact ⟨ledgerRowsFor_length _ _ _, ledgerRowsFor_fields _ _ _⟩

/-- Witness for C4: one ledger entry snapshotted into the empty store. -/
theorem snapshot_ledger_fidelity_witness :
    ((StoreState.snapshot (fun s => s) emptyStore
            ⟨"a", [⟨"search", "i", "o", "ok", 120, some "u", 9⟩]⟩ none 3).2.tool_ledger.filter
          (fun r => r.snapshot_id ==
            (StoreState.snapshot (fun s => s) emptyStore
              ⟨"a", [⟨"search", "i", "o", "ok", 120, some "u", 9⟩]⟩ none 3).1)).length =
        ([⟨"search", "i", "o", "ok", 120, some "u", 9⟩] : List ToolLedgerEntry).length ∧
      ((StoreState.snapshot (fun s => s) emptyStore
            ⟨"a", [⟨"search", "i", "o", "ok", 120, some "u", 9⟩]⟩ none 3).2.tool_ledger.filter
          (fun r => r.snapshot_id ==
            (StoreState.snapshot (fun s => s) emptyStore
              ⟨"a", [⟨"search", "i", "o", "ok", 120, some "u", 9⟩]⟩ none 3).1)).map
          LedgerRow.fields = [⟨"search", "i", "o", "ok", 120, some "u", 9⟩] :=
  snapshot_ledger_fidelity (fun s => s) emptyStore
    ⟨"a", [⟨"search", "i", "o", "ok", 120, some "u", 9⟩]⟩ none 3
    (fun r hr => absurd hr (List.not_mem_nil r))

/-- C10: the ledger rows persisted by one `snapshot` call appear in the
index in the same order as the state's `tool_ledger` sequence
(recovering the input entries field-for-field), and their AUTOINCREMENT
ids are strictly increasing in that order, so the original ordering is
recoverable from the index. -/
theorem snapshot_ledger_order (hash : String → String) (st : StoreState)
    (state : AgentState) (p : Option Nat) (now : Int)
    (hfresh : ∀ r ∈ st.tool_ledger, r.snapshot_id ≠ st.next_uuid) :
    ((StoreState.snapshot hash st state p now).2.tool_ledger.filter
          (fun r => r.snapshot_id == (StoreState.snapshot hash st state p now).1)).map
          LedgerRow.fields = state.tool_ledger ∧
      ∀ i j (hi : i < ((StoreState.snapshot hash st state p now).2.tool_ledger.filter
          (fun r => r.snapshot_id == (StoreState.snapshot hash st state p now).1)).length)
        (hj : j < ((StoreState.snapshot hash st state p now).2.tool_ledger.filter
          (fun r => r.snapshot_id == (StoreState.snapshot hash st state p now).1)).length),
        i < j →
        (((StoreState.snapshot hash st state p now).2.tool_ledger.filter
            (fun r => r.snapshot_id ==
              (StoreState.snapshot hash st state p now).1)).get ⟨i, hi⟩).id <
          (((StoreState.snapshot hash st state p now).2.tool_ledger.filter
            (fun r => r.snapshot_id ==
              (StoreState.snapshot hash st state p now).1)).get ⟨j, hj⟩).id := by
  rw [snapshot_fst, snapshot_ledger, List.filter_append]
  have h1 : st.tool_ledger.filter (fun r => r.snapshot_id == st.next_uuid) = [] := by
    rw [List.filter_eq_nil_iff]
    intro x hx
    simp [hfresh x hx]
  have h2 : (ledgerRowsFor st.next_uuid st.next_ledger_id state.tool_ledger).filter
      (fun r => r.snapshot_id == st.next_uuid) =
      ledgerRowsFor st.next_uuid st.next_ledger_id state.tool_ledger := by
    rw [List.filter_eq_self]
    intro x hx
    simp [ledgerRowsFor_snapshot_id _ _ _ x hx]
  rw [h1, h2, List.nil_append]
  refine ⟨ledgerRowsFor_fields _ _ _, fun i j hi hj hij => ?_⟩
  rw [ledgerRowsFor_get_id, ledgerRowsFor_get_id]
  omega

/-- Witness for C10: two ledger entries snapshotted into the empty
store. -/
theorem snapshot_ledger_order_witness :
    ((StoreState.snapshot (fun s => s) emptyStore
          ⟨"a", [⟨"t1", "i1", "o1", "ok", 1, none, 5⟩, ⟨"t2", "i2", "o2", "err", 2, none, 6⟩]⟩
          none 3).2.tool_ledger.filter
          (fun r => r.snapshot_id ==
            (StoreState.snapshot (fun s => s) emptyStore
              ⟨"a", [⟨"t1", "i1", "o1", "ok", 1, none, 5⟩,
                ⟨"t2", "i2", "o2", "err", 2, none, 6⟩]⟩ none 3).1)).map
        LedgerRow.fields =
        [⟨"t1", "i1", "o1", "ok", 1, none, 5⟩, ⟨"t2", "i2", "o2", "err", 2, none, 6⟩] ∧
      ∀ i j (hi : i < ((StoreState.snapshot (fun s => s) emptyStore
          ⟨"a", [⟨"t1", "i1", "o1", "ok", 1, none, 5⟩, ⟨"t2", "i2", "o2", "err", 2, none, 6⟩]⟩
          none 3).2.tool_ledger.filter
          (fun r => r.snapshot_id ==
            (StoreState.snapshot (fun s => s) emptyStore
              ⟨"a", [⟨"t1", "i1", "o1", "ok", 1, none, 5⟩,
                ⟨"t2", "i2", "o2", "err", 2, none, 6⟩]⟩ none 3).1)).length)
        (hj : j < ((StoreState.snapshot (fun s => s) emptyStore
          ⟨"a", [⟨"t1", "i1", "o1", "ok", 1, none, 5⟩, ⟨"t2", "i2", "o2", "err", 2, none, 6⟩]⟩
          none 3).2.tool_ledger.filter
          (fun r => r.snapshot_id ==
            (StoreState.snapshot (fun s => s) emptyStore
              ⟨"a", [⟨"t1", "i1", "o1", "ok", 1, none, 5⟩,
                ⟨"t2", "i2", "o2", "err", 2, none, 6⟩]⟩ none 3).1)).length),
        i < j →
        (((StoreState.snapshot (fun s => s) emptyStore
          ⟨"a", [⟨"t1", "i1", "o1", "ok", 1, none, 5⟩, ⟨"t2", "i2", "o2", "err", 2, none, 6⟩]⟩
          none 3).2.tool_ledger.filter
          (fun r => r.snapshot_id ==
            (StoreState.snapshot (fun s => s) emptyStore
              ⟨"a", [⟨"t1", "i1", "o1", "ok", 1, none, 5⟩,
                ⟨"t2", "i2", "o2", "err", 2, none, 6⟩]⟩ none 3).1)).get ⟨i, hi⟩).id <
          (((StoreState.snapshot (fun s => s) emptyStore
          ⟨"a", [⟨"t1", "i1", "o1", "ok", 1, none, 5⟩, ⟨"t2", "i2", "o2", "err", 2, none, 6⟩]⟩
          none 3).2.tool_ledger.filter
          (fun r => r.snapshot_id ==
            (StoreState.snapshot (fun s => s) emptyStore
              ⟨"a", [⟨"t1", "i1", "o1", "ok", 1, none, 5⟩,
                ⟨"t2", "i2", "o2", "err", 2, none, 6⟩]⟩ none 3).1)).get ⟨j, hj⟩).id :=
  snapshot_ledger_order (fun s => s) emptyStore
    ⟨"a", [⟨"t1", "i1", "o1", "ok", 1, none, 5⟩, ⟨"t2", "i2", "o2", "err", 2, none, 6⟩]⟩
    none 3 (fun r hr => absurd hr (List.not_mem_nil r))

theorem blobLookup_write_mono (hash : String → String) (st : StoreState) (d : List Nat)
    (h : String) (hsome : (blobLookup st.blobs h).isSome) :
    (blobLookup (st.write_blob hash d).2.blobs h).isSome := by
  simp only [StoreState.write_blob]
  split
  · exact hsome
  · have hfind : (st.blobs.find? (fun p => p.1 == h)).isSome := by
      simpa [blobLookup] using hsome
    obtain ⟨q, hq⟩ := Option.isSome_iff_exists.mp hfind
    unfold blobLookup
    rw [List.find?_append, hq]
    rfl

/-- C8: in every `snapshot` call the blob named by the digest is
written to the blob store before the index row: at the intermediate
state produced by `_write_blob` the digest already names an existing
blob, the index insertion leaves the blob store untouched, and the
committed row carries exactly that digest as its `state_blob_hash`.
Consequently the existing-blob invariant is preserved: if every
snapshot row's `state_blob_hash` named an existing blob before the
call, the same holds of every row after it. -/
theorem snapshot_blob_before_row (hash : String → String) (st : StoreState)
    (state : AgentState) (p : Option Nat) (now : Int) :
    (blobLookup (st.write_blob hash (utf8Encode state.to_json)).2.blobs
        (st.write_blob hash (utf8Encode state.to_json)).1).isSome ∧
      (StoreState.snapshot hash st state p now).2.blobs =
        (st.write_blob hash (utf8Encode state.to_json)).2.blobs ∧
      (∃ row, (StoreState.snapshot hash st state p now).2.snapshots =
          st.snapshots ++ [row] ∧
          row.state_blob_hash = (st.write_blob hash (utf8Encode state.to_json)).1) ∧
      ((∀ r ∈ st.snapshots, (blobLookup st.blobs r.state_blob_hash).isSome) →
        ∀ r ∈ (StoreState.snapshot hash st state p now).2.snapshots,
          (blobLookup ((StoreState.snapshot hash st state p now).2.blobs)
            r.state_blob_hash).isSome) := by
  have hself : (blobLookup (st.write_blob hash (utf8Encode state.to_json)).2.blobs
      (st.write_blob hash (utf8Encode state.to_json)).1).isSome := by
    rw [write_blob_fst]
    exact write_blob_lookup_self hash st (utf8Encode state.to_json)
  refine ⟨hself, snapshot_blobs hash st state p now, ?_, ?_⟩
  · refine ⟨⟨st.next_uuid, p, hash state.to_json,
      hash (utf8DecodeIgnore (utf8Encode state.to_json)), now⟩,
      snapshot_snapshots hash st state p now, ?_⟩
    rw [write_blob_fst]
  · intro hinv r hr
    rw [snapshot_snapshots] at hr
    rw [snapshot_blobs]
    rcases List.mem_append.mp hr with hr | hr
    · exact blobLookup_write_mono hash st _ _ (hinv r hr)
    · simp only [List.mem_singleton] at hr
      rw [hr]
      show (blobLookup (st.write_blob hash (utf8Encode state.to_json)).2.blobs
        (hash (utf8DecodeIgnore (utf8Encode state.to_json)))).isSome
      exact write_blob_lookup_self hash st (utf8Encode state.to_json)

/-- Witness for C8: the invariant-preservation implication discharged
at the empty store. -/
theorem snapshot_blob_before_row_witness :
    (blobLookup (emptyStore.write_blob (fun s => s) (utf8Encode
        (AgentState.mk "a" []).to_json)).2.blobs
      (emptyStore.write_blob (fun s => s) (utf8Encode (AgentState.mk "a" []).to_json)).1).isSome ∧
      (StoreState.snapshot (fun s => s) emptyStore ⟨"a", []⟩ none 4).2.blobs =
        (emptyStore.write_blob (fun s => s) (utf8Encode (AgentState.mk "a" []).to_json)).2.blobs ∧
      (∃ row, (StoreState.snapshot (fun s => s) emptyStore ⟨"a", []⟩ none 4).2.snapshots =
          emptyStore.snapshots ++ [row] ∧
          row.state_blob_hash =
            (emptyStore.write_blob (fun s => s) (utf8Encode (AgentState.mk "a" []).to_json)).1) ∧
      ((∀ r ∈ emptyStore.snapshots, (blobLookup emptyStore.blobs r.state_blob_hash).isSome) →
        ∀ r ∈ (StoreState.snapshot (fun s => s) emptyStore ⟨"a", []⟩ none 4).2.snapshots,
          (blobLookup ((StoreState.snapshot (fun s => s) emptyStore ⟨"a", []⟩ none 4).2.blobs)
            r.state_blob_hash).isSome) :=
  snapshot_blob_before_row (fun s => s) emptyStore ⟨"a", []⟩ none 4

/-- C9: within one `snapshot` call the snapshot row and all its ledger
rows are committed to the index as a single unit of work: either the
call succeeds and the index gains the snapshot row together with all
its ledger rows, or some index insert fails before the commit and both
index tables are left exactly unchanged (only the blob write, which
precedes the transaction, persists). -/
theorem snapshotFallible_atomic (hash : String → String) (failOn : IndexInsert → Bool)
    (st : StoreState) (state : AgentState) (p : Option Nat) (now : Int) :
    (∃ sid,
        (StoreState.snapshotFallible hash failOn st state p now).2 = Except.ok sid ∧
        (∃ row, row.snapshot_id = sid ∧
          (StoreState.snapshotFallible hash failOn st state p now).1.snapshots =
            st.snapshots ++ [row]) ∧
        (StoreState.snapshotFallible hash failOn st state p now).1.tool_ledger =
          st.tool_ledger ++ ledgerRowsFor sid st.next_ledger_id state.tool_ledger) ∨
      ((∃ e, (StoreState.snapshotFallible hash failOn st state p now).2 = Except.error e) ∧
        (StoreState.snapshotFallible hash failOn st state p now).1.snapshots =
          st.snapshots ∧
        (StoreState.snapshotFallible hash failOn st state p now).1.tool_ledger =
          st.tool_ledger) := by
  obtain ⟨h1, h2, h3, h4⟩ := write_blob_fields hash st (utf8Encode state.to_json)
  simp only [StoreState.snapshotFallible]
  split
  · right
    exact ⟨⟨"index insert failed", rfl⟩, h1, h2⟩
  · left
    refine ⟨st.next_uuid, ?_, ?_, ?_⟩
    · simp [h4]
    · refine ⟨⟨(st.write_blob hash (utf8Encode state.to_json)).2.next_uuid, p,
        hash state.to_json, (st.write_blob hash (utf8Encode state.to_json)).1, now⟩,
        by simp [h4], ?_⟩
      simp [h1]
    · show (st.write_blob hash (utf8Encode state.to_json)).2.tool_ledger ++
          ledgerRowsFor (st.write_blob hash (utf8Encode state.to_json)).2.next_uuid
            (st.write_blob hash (utf8Encode state.to_json)).2.next_ledger_id
            state.tool_ledger =
        st.tool_ledger ++ ledgerRowsFor st.next_uuid st.next_ledger_id state.tool_ledger
      rw [h2, h3, h4]

/-- The hypotheses used by the theorems above are genuine store
invariants: every blob holds the encoding of some serialized text under
that text's digest, and every recorded snapshot id is below the fresh
counter (hence distinct from every id a later call returns). -/
def StoreWF (hash : String → String) (st : StoreState) : Prop :=
  BlobsWF hash st.blobs ∧
    (∀ r ∈ st.snapshots, r.snapshot_id < st.next_uuid) ∧
    (∀ r ∈ st.tool_ledger, r.snapshot_id < st.next_uuid)

theorem storeWF_empty (hash : String → String) : StoreWF hash emptyStore := by
  refine ⟨?_, ?_, ?_⟩ <;> intro r hr <;> exact absurd hr (List.not_mem_nil r)

theorem storeWF_snapshot (hash : String → String) (st : StoreState) (state : AgentState)
    (p : Option Nat) (now : Int) (hwf : StoreWF hash st) :
    StoreWF hash (StoreState.snapshot hash st state p now).2 := by
  obtain ⟨hb, hs, hl⟩ := hwf
  refine ⟨?_, ?_, ?_⟩
  · rw [snapshot_blobs]
    exact write_blob_wf hash st state.to_json hb
  · intro r hr
    rw [snapshot_next_uuid]
    rw [snapshot_snapshots] at hr
    rcases List.mem_append.mp hr with hr | hr
    · exact lt_trans (hs r hr) (Nat.lt_succ_self _)
    · simp only [List.mem_singleton] at hr
      rw [hr]
      exact Nat.lt_succ_self _
  · intro r hr
    rw [snapshot_next_uuid]
    rw [snapshot_ledger] at hr
    rcases List.mem_append.mp hr with hr | hr
    · exact lt_trans (hl r hr) (Nat.lt_succ_self _)
    · rw [ledgerRowsFor_snapshot_id _ _ _ r hr]
      exact Nat.lt_succ_self _

theorem storeWF_fresh (hash : String → String) (st : StoreState) (hwf : StoreWF hash st) :
    (∀ r ∈ st.snapshots, r.snapshot_id ≠ st.next_uuid) ∧
      ∀ r ∈ st.tool_ledger, r.snapshot_id ≠ st.next_uuid := by
  exact ⟨fun r hr => Nat.ne_of_lt (hwf.2.1 r hr), fun r hr => Nat.ne_of_lt (hwf.2.2 r hr)⟩

end AtmCore
